import Mathlib

/-!
Verification of the mlpack fragment consisting of the CReLU activation layer
(`src/mlpack/methods/ann/layer/c_relu.hpp`) and the image-loading utility
(`src/mlpack/core/data/load_image.hpp`).

Tensors (arma matrices) are embedded as lists of rows of rationals: the outer
list runs over the feature axis (rows), each inner list over the batch axis
(columns).  The repository fragment contains only the headers; the bodies
live in `c_relu_impl.hpp` / `load_image_impl.hpp`, which are not part of the
fragment, so the operation bodies are modelled from the specification as
indicated on each definition.
-/

namespace Mlpack

/-- A tensor: list of feature rows, each row a list of per-column entries. -/
abbrev Tensor := List (List ℚ)

/-- Elementwise `max(x, 0)` (ReLU). -/
def relu (x : ℚ) : ℚ := max x 0

/-- Zip three lists with a ternary function, truncating to the shortest. -/
def zipWith3 (f : α → β → γ → δ) : List α → List β → List γ → List δ
  | a :: as, b :: bs, c :: cs => f a b c :: zipWith3 f as bs cs
  | _, _, _ => []

namespace CReLU

/-- Modelled from the spec: the body of `CReLUType::Forward` is in
`c_relu_impl.hpp`, which is not part of the fragment.  Per the spec, the
output's positive half is `max(x,0)` elementwise, the negative half
(appended along the feature axis) is `max(-x,0)` elementwise. -/
def Forward (input : Tensor) : Tensor :=
  (input.map (fun row => row.map relu)) ++
    (input.map (fun row => row.map (fun x => relu (-x))))

/-- Gradient contribution at one position: `gy_pos·[x>0] - gy_neg·[x<0]`. -/
def backwardElem (x gp gn : ℚ) : ℚ :=
  gp * (if 0 < x then 1 else 0) - gn * (if x < 0 then 1 else 0)

/-- Modelled from the spec: the body of `CReLUType::Backward` is in
`c_relu_impl.hpp`, which is not part of the fragment.  Per the spec, the
upstream gradient `gy` is split into its positive-half and negative-half
blocks and each position yields `gy_pos·[x>0] - gy_neg·[x<0]`; a `gy` whose
feature dimension differs from twice the input's is an invalid-argument
error, modelled as `none`. -/
def Backward (input gy : Tensor) : Option Tensor :=
  if gy.length = 2 * input.length then
    some (zipWith3 (zipWith3 backwardElem)
      input (gy.take input.length) (gy.drop input.length))
  else
    none

/-- The CReLU layer object.  The class declares no data members
(`c_relu.hpp`, lines 49-80: only member functions), so the state type is
empty. -/
structure CReLUType where

/-- A call to `Forward` as it appears to a caller: it receives the layer
object and the input, writes the output, and leaves the layer as it was. -/
def forwardCall (layer : CReLUType) (input : Tensor) : CReLUType × Tensor :=
  (layer, Forward input)

/-- A call to `Backward` as it appears to a caller: it receives the layer
object, the input and the upstream gradient, writes the gradient, and
leaves the layer as it was. -/
def backwardCall (layer : CReLUType) (input gy : Tensor) :
    CReLUType × Option Tensor :=
  (layer, Backward input gy)

/-- Modelled from the spec: the body of `CReLUType::serialize` is in
`c_relu_impl.hpp`, which is not part of the fragment; the header takes the
archive unnamed and the class has no data members, so serialization records
no state. -/
def serialize (_layer : CReLUType) : List ℚ := []

/-- Restoring a CReLU layer from an archive: with no recorded state, the
restored object is the (unique) member-less layer object. -/
def deserialize (_archive : List ℚ) : CReLUType := {}

end CReLU

namespace LoadImage

/-- Modelled from the spec: the supported image file extensions - the
`fileTypes` member that the `LoadImage` constructor initialises in
`load_image_impl.hpp`, which is not part of the fragment. -/
def fileTypes : List String :=
  ["jpg", "jpeg", "png", "tga", "bmp", "psd", "gif", "hdr", "pic",
   "pnm", "ppm", "pgm"]

/-- Modelled from the spec: the extension of a file name (`extension.hpp`
is not part of the fragment) - the characters after the last dot, empty
when the name has no dot. -/
def extensionOf (fileName : String) : List Char :=
  if fileName.data.contains '.' then
    (fileName.data.reverse.takeWhile (fun c => c ≠ '.')).reverse
  else []

/-- The extension lowercased, for case-insensitive matching. -/
def lowerExtension (fileName : String) : List Char :=
  (extensionOf fileName).map Char.toLower

/-- Modelled from the spec: the body of `LoadImage::ImageFormatSupported`
is in `load_image_impl.hpp`, which is not part of the fragment; it checks
the file name's extension, case-insensitively, against the stored
`fileTypes`, without touching the file system. -/
def ImageFormatSupported (fileName : String) : Bool :=
  fileTypes.any (fun t => lowerExtension fileName == t.data)

/-- A decoded image as handed back by the external decoder (stb_image, a
black box per the spec): dimensions plus the pixel scanlines, each scanline
holding the interleaved bytes of one image row. -/
structure Image where
  width : ℕ
  height : ℕ
  channels : ℕ
  pixels : List (List ℕ)
  deriving DecidableEq

/-- The decoder contract: `height` scanlines of `width * channels` bytes. -/
def Image.wellFormed (img : Image) : Prop :=
  img.pixels.length = img.height ∧
    ∀ row ∈ img.pixels, row.length = img.width * img.channels

/-- Modelled from the spec: one file's trip through `LoadImage::Load`
(body in `load_image_impl.hpp`, not part of the fragment): reject an
unsupported extension, consult the decoder, reverse the scanlines when
`flipVertical` is set; `none` models a `false` return. -/
def loadStep (decode : String → Option Image) (fileName : String)
    (flipVertical : Bool) : Option Image :=
  if ImageFormatSupported fileName then
    match decode fileName with
    | some img =>
        some { img with
          pixels := if flipVertical then img.pixels.reverse else img.pixels }
    | none => none
  else
    none

/-- `LoadImage::Load` (single file): the destination byte buffer on
success, `none` (a `false` return) on failure. -/
def Load (decode : String → Option Image) (fileName : String)
    (flipVertical : Bool) : Option (List ℕ) :=
  (loadStep decode fileName flipVertical).map (fun img => img.pixels.flatten)

/-- Whether two decoded images have identical dimensions. -/
def sameDims (a b : Image) : Bool :=
  a.width == b.width && a.height == b.height && a.channels == b.channels

/-- Load every file of a list, failing as soon as one file fails. -/
def loadAll (decode : String → Option Image) (flipVertical : Bool) :
    List String → Option (List Image)
  | [] => some []
  | f :: rest =>
    match loadStep decode f flipVertical, loadAll decode flipVertical rest with
    | some img, some imgs => some (img :: imgs)
    | _, _ => none

/-- Modelled from the spec: the file-list overload of `LoadImage::Load`
(body in `load_image_impl.hpp`, not part of the fragment): load every
file, reject the whole batch when any file fails or the decoded dimensions
are inconsistent across the list, otherwise emit one column per image. -/
def LoadList (decode : String → Option Image) (files : List String)
    (flipVertical : Bool) : Option (List (List ℕ)) :=
  match loadAll decode flipVertical files with
  | none => none
  | some [] => some []
  | some (img0 :: rest) =>
    if rest.all (fun img => sameDims img0 img) then
      some ((img0 :: rest).map (fun img => img.pixels.flatten))
    else
      none

/-- Modelled from the spec: `LoadImage::LoadDIR` (body in
`load_image_impl.hpp`, not part of the fragment) enumerates the directory,
keeps the supported-format files, and delegates to the file-list `Load`;
the directory's contents are passed in as its listing. -/
def LoadDIR (decode : String → Option Image) (listing : List String)
    (flipVertical : Bool) : Option (List (List ℕ)) :=
  LoadList decode (listing.filter ImageFormatSupported) flipVertical

/-- A concrete decoder used to instantiate the loader theorems: it decodes
only the file named `a.png`, to a 1 x 1 single-channel image. -/
def demoDecode : String → Option Image := fun fileName =>
  if fileName == "a.png" then some ⟨1, 1, 1, [[7]]⟩ else none

end LoadImage

end Mlpack

namespace Mlpack

/-- Length of a `zipWith3`: the minimum of the three input lengths. -/
theorem length_zipWith3 (f : α → β → γ → δ) (as : List α) (bs : List β)
    (cs : List γ) :
    (zipWith3 f as bs cs).length = min as.length (min bs.length cs.length) := by
  induction as generalizing bs cs with
  | nil => simp [zipWith3]
  | cons a as ih =>
    cases bs with
    | nil => simp [zipWith3]
    | cons b bs =>
      cases cs with
      | nil => simp [zipWith3]
      | cons c cs =>
        simp [zipWith3, ih, Nat.succ_min_succ]

theorem getElem?_zipWith3 (f : α → β → γ → δ) (as : List α) (bs : List β)
    (cs : List γ) (i : ℕ) (a : α) (b : β) (c : γ)
    (ha : as[i]? = some a) (hb : bs[i]? = some b) (hc : cs[i]? = some c) :
    (zipWith3 f as bs cs)[i]? = some (f a b c) := by
  induction as generalizing bs cs i with
  | nil => simp at ha
  | cons x xs ih =>
    cases bs with
    | nil => simp at hb
    | cons y ys =>
      cases cs with
      | nil => simp at hc
      | cons z zs =>
        cases i with
        | zero =>
          simp at ha hb hc
          simp [zipWith3, ha, hb, hc]
        | succ n =>
          simp at ha hb hc
          simpa [zipWith3] using ih ys zs n ha hb hc

namespace CReLU

/-- C1. For every input tensor, the positive half of `Forward` is the
elementwise `max(x,0)` of the input, the negative half is the elementwise
`max(-x,0)`, the output has exactly twice as many feature rows, each row
keeps the input's batch width, and on the single-column tensor `[-2,0,3]`
the output is `[0,0,3,2,0,0]`. -/
theorem forward_spec :
    (∀ input : Tensor,
      (Forward input).take input.length = input.map (fun row => row.map relu) ∧
      (Forward input).drop input.length
        = input.map (fun row => row.map (fun x => relu (-x))) ∧
      (Forward input).length = 2 * input.length ∧
      (Forward input).map List.length
        = input.map List.length ++ input.map List.length) ∧
    Forward [[-2], [0], [3]] = [[0], [0], [3], [2], [0], [0]] := by
  constructor
  · intro input
    refine ⟨?_, ?_, ?_, ?_⟩
    · simp [Forward, List.take_append_of_le_length]
    · simp [Forward]
    · simp [Forward, two_mul]
    · simp [Forward, Function.comp_def]
  · decide

/-- C2. Whenever the upstream gradient `gy` has twice the input's feature
dimension, `Backward` at each element position yields
`gy_pos·[x>0] - gy_neg·[x<0]`, which is `0` whenever the input element is
`0`; and on input `[-2,0,3]` with upstream gradient `[1,1,1,1,1,1]` the
result is `[-1,0,1]`. -/
theorem backward_spec :
    (∀ (input gy : Tensor) (i j : ℕ) (x gp gn : ℚ),
      gy.length = 2 * input.length →
      (input[i]?.bind fun row => row[j]?) = some x →
      ((gy.take input.length)[i]?.bind fun row => row[j]?) = some gp →
      ((gy.drop input.length)[i]?.bind fun row => row[j]?) = some gn →
      ((Backward input gy).bind fun g => g[i]?.bind fun row => row[j]?)
          = some (gp * (if 0 < x then 1 else 0) -
              gn * (if x < 0 then 1 else 0)) ∧
        (x = 0 →
          ((Backward input gy).bind fun g => g[i]?.bind fun row => row[j]?)
            = some 0)) ∧
    Backward [[-2], [0], [3]] [[1], [1], [1], [1], [1], [1]]
      = some [[-1], [0], [1]] := by
  constructor
  · intro input gy i j x gp gn hlen hx hgp hgn
    rw [Option.bind_eq_some] at hx hgp hgn
    obtain ⟨xr, hxr, hxj⟩ := hx
    obtain ⟨gpr, hgpr, hgpj⟩ := hgp
    obtain ⟨gnr, hgnr, hgnj⟩ := hgn
    have hrow := getElem?_zipWith3 (zipWith3 backwardElem) input
      (gy.take input.length) (gy.drop input.length) i xr gpr gnr hxr hgpr hgnr
    have hel := getElem?_zipWith3 backwardElem xr gpr gnr j x gp gn
      hxj hgpj hgnj
    have hB : Backward input gy = some (zipWith3 (zipWith3 backwardElem)
        input (gy.take input.length) (gy.drop input.length)) := by
      simp [Backward, hlen]
    refine ⟨?_, ?_⟩
    · simp [hB, hrow, hel, backwardElem]
    · intro h0
      subst h0
      simp [hB, hrow, hel, backwardElem]
  · norm_num [Backward, zipWith3, backwardElem]

/-- C2 witness. The elementwise gradient formula at the concrete input
`[-2,0,3]`, upstream gradient of all ones, position `(0,0)`. -/
theorem backward_spec_witness :
    ((Backward [[-2], [0], [3]] [[1], [1], [1], [1], [1], [1]]).bind
        fun g => g[0]?.bind fun row => row[0]?)
      = some (1 * (if 0 < (-2 : ℚ) then 1 else 0) -
          1 * (if (-2 : ℚ) < 0 then 1 else 0)) :=
  (backward_spec.1 [[-2], [0], [3]] [[1], [1], [1], [1], [1], [1]]
    0 0 (-2) 1 1 (by decide) (by decide) (by decide) (by decide)).1

/-- C3. Applying `Forward` to the negated input exchanges the positive
and negative halves of the output. -/
theorem forward_neg_swaps_halves (input : Tensor) :
    Forward (input.map (fun row => row.map (fun x => -x)))
      = (Forward input).drop input.length ++
          (Forward input).take input.length := by
  simp [Forward, List.map_map, Function.comp_def, neg_neg,
    List.take_append_of_le_length]

/-- C4. `Backward` signals an invalid-argument error (modelled as
`none`) exactly when the upstream gradient's feature dimension differs from
`2 ×` the input's; whenever the shapes agree it produces a result, so no
other failure mode exists. -/
theorem backward_shape_error (input gy : Tensor) :
    (Backward input gy = none ↔ gy.length ≠ 2 * input.length) ∧
      (gy.length = 2 * input.length → (Backward input gy).isSome = true) := by
  by_cases h : gy.length = 2 * input.length <;> simp [Backward, h]

/-- C4 witness. A well-shaped upstream gradient produces a result. -/
theorem backward_shape_error_witness :
    (Backward [[(1 : ℚ)]] [[1], [1]]).isSome = true :=
  (backward_shape_error [[(1 : ℚ)]] [[1], [1]]).2 (by decide)

/-- C9. `Forward` and `Backward` are deterministic and stateless: a call
leaves the layer object exactly as it was, and two calls on any two layer
objects (hence on any run, in any call order) with equal arguments produce
identical outputs. -/
theorem calls_deterministic_stateless (layer₁ layer₂ : CReLUType)
    (input gy : Tensor) :
    (forwardCall layer₁ input).1 = layer₁ ∧
      (backwardCall layer₁ input gy).1 = layer₁ ∧
      (forwardCall layer₁ input).2 = (forwardCall layer₂ input).2 ∧
      (backwardCall layer₁ input gy).2 = (backwardCall layer₂ input gy).2 :=
  ⟨rfl, rfl, rfl, rfl⟩

/-- C10. Serializing a CReLU layer and restoring it is the identity: the
restored layer is equal to the original, so its `Forward` and `Backward`
coincide with the original's on every input. -/
theorem serialize_roundtrip (layer : CReLUType) (input gy : Tensor) :
    deserialize (serialize layer) = layer ∧
      forwardCall (deserialize (serialize layer)) input
        = forwardCall layer input ∧
      backwardCall (deserialize (serialize layer)) input gy
        = backwardCall layer input gy :=
  ⟨rfl, rfl, rfl⟩

end CReLU

end Mlpack

namespace Mlpack

namespace LoadImage

/-- C5. Checking whether a file's format is supported is purely a function
of the path string: it holds exactly when the lowercased extension is one
of the twelve supported ones; in particular `photo.JPG` is supported and
`doc.txt` is not. -/
theorem imageFormatSupported_spec :
    (∀ fileName : String,
      ImageFormatSupported fileName = true ↔
        lowerExtension fileName ∈ fileTypes.map String.data) ∧
      ImageFormatSupported "photo.JPG" = true ∧
      ImageFormatSupported "doc.txt" = false := by
  refine ⟨?_, by decide, by decide⟩
  intro fileName
  unfold ImageFormatSupported
  constructor
  · intro h
    rcases List.any_eq_true.mp h with ⟨t, ht, hbeq⟩
    exact List.mem_map.mpr ⟨t, ht, (beq_iff_eq.mp hbeq).symm⟩
  · intro h
    rcases List.mem_map.mp h with ⟨t, ht, hdata⟩
    exact List.any_eq_true.mpr ⟨t, ht, beq_iff_eq.mpr hdata.symm⟩

/-- Loading a list of files fails as soon as any one file fails. -/
theorem loadAll_eq_none (decode : String → Option Image) (flip : Bool)
    (files : List String) (f : String) (hf : f ∈ files)
    (hfail : loadStep decode f flip = none) :
    loadAll decode flip files = none := by
  induction files with
  | nil => simp at hf
  | cons g rest ih =>
    rcases List.mem_cons.mp hf with h | h
    · subst h
      simp [loadAll, hfail]
    · cases hs : loadStep decode g flip <;> simp [loadAll, hs, ih h]

/-- Loading a list of files yields one image per file. -/
theorem loadAll_length (decode : String → Option Image) (flip : Bool)
    (files : List String) (imgs : List Image)
    (h : loadAll decode flip files = some imgs) :
    imgs.length = files.length := by
  induction files generalizing imgs with
  | nil =>
    simp [loadAll] at h
    simp [h]
  | cons g rest ih =>
    cases hs : loadStep decode g flip with
    | none => simp [loadAll, hs] at h
    | some img =>
      cases hr : loadAll decode flip rest with
      | none => simp [loadAll, hs, hr] at h
      | some is =>
        simp [loadAll, hs, hr] at h
        simp [← h, ih is hr]

/-- C6. The file-list `Load` yields one column per file on success, and
fails outright - no partial result - as soon as any single file fails to
load or the decoded dimensions are inconsistent across the list. -/
theorem load_list_spec (decode : String → Option Image)
    (files : List String) (flip : Bool) :
    (∀ M, LoadList decode files flip = some M → M.length = files.length) ∧
      (∀ f ∈ files, loadStep decode f flip = none →
        LoadList decode files flip = none) ∧
      (∀ img0 rest, loadAll decode flip files = some (img0 :: rest) →
        (∃ img ∈ rest, sameDims img0 img = false) →
        LoadList decode files flip = none) ∧
      (∀ imgs, loadAll decode flip files = some imgs →
        (∀ a ∈ imgs, ∀ b ∈ imgs, sameDims a b = true) →
        LoadList decode files flip
          = some (imgs.map (fun img => img.pixels.flatten))) := by
  refine ⟨?_, ?_, ?_, ?_⟩
  · intro M hM
    unfold LoadList at hM
    cases hA : loadAll decode flip files with
    | none => rw [hA] at hM; exact absurd hM (by simp)
    | some imgs =>
      rw [hA] at hM
      have hlen := loadAll_length decode flip files imgs hA
      cases imgs with
      | nil =>
        simp at hM
        simp [← hM, ← hlen]
      | cons img0 rest =>
        by_cases hall : rest.all (fun img => sameDims img0 img) = true
        · simp [hall] at hM
          simp [← hM, ← hlen]
        · simp [hall] at hM
  · intro f hf hfail
    simp [LoadList, loadAll_eq_none decode flip files f hf hfail]
  · intro img0 rest hA ⟨img, hmem, hdiff⟩
    have hall : rest.all (fun img => sameDims img0 img) = false := by
      rcases hall2 : rest.all (fun img => sameDims img0 img) with _ | _
      · rfl
      · have := (List.all_eq_true.mp hall2) img hmem
        rw [hdiff] at this
        exact absurd this (by simp)
    simp [LoadList, hA, hall]
  · intro imgs hA hcons
    cases imgs with
    | nil => simp [LoadList, hA]
    | cons img0 rest =>
      have hall : rest.all (fun img => sameDims img0 img) = true := by
        rw [List.all_eq_true]
        intro img hmem
        exact hcons img0 (by simp) img (by simp [hmem])
      simp [LoadList, hA, hall]

/-- C6 witness. A two-file batch whose second file fails to decode is
rejected as a whole. -/
theorem load_list_spec_witness :
    LoadList demoDecode ["a.png", "b.png"] false = none :=
  (load_list_spec demoDecode ["a.png", "b.png"] false).2.1 "b.png"
    (by simp) (by decide)

/-- C7. Every single-file loader failure (unsupported extension, a file the
decoder cannot read) is reported by `Load` returning failure, and on any
successful load of a well-formed decoded image the destination buffer holds
exactly `width * height * channels` bytes. -/
theorem load_spec (decode : String → Option Image) (fileName : String)
    (flip : Bool) :
    (ImageFormatSupported fileName = false →
        Load decode fileName flip = none) ∧
      (decode fileName = none → Load decode fileName flip = none) ∧
      (∀ img, decode fileName = some img → img.wellFormed →
        ∀ buf, Load decode fileName flip = some buf →
          buf.length = img.width * img.height * img.channels) := by
  refine ⟨?_, ?_, ?_⟩
  · intro h
    simp [Load, loadStep, h]
  · intro h
    simp [Load, loadStep, h]
  · intro img hdec ⟨hrows, hrow⟩ buf hbuf
    by_cases hsupp : ImageFormatSupported fileName = true
    · simp [Load, loadStep, hsupp, hdec] at hbuf
      have hflat : ∀ rows : List (List ℕ), rows.length = img.height →
          (∀ row ∈ rows, row.length = img.width * img.channels) →
          rows.flatten.length = img.width * img.height * img.channels := by
        intro rows hlen hmem
        rw [List.length_flatten]
        have : rows.map List.length
            = List.replicate rows.length (img.width * img.channels) := by
          have := List.eq_replicate_of_mem (l := rows.map List.length)
            (a := img.width * img.channels) ?_
          · simpa using this
          · intro b hb
            rcases List.mem_map.mp hb with ⟨row, hrmem, hrlen⟩
            rw [← hrlen]
            exact hmem row hrmem
        rw [this, List.sum_replicate, smul_eq_mul, hlen]
        ring
      cases flip with
      | false =>
        simp at hbuf
        rw [← hbuf]
        exact hflat img.pixels hrows hrow
      | true =>
        simp at hbuf
        rw [← hbuf]
        exact hflat img.pixels.reverse (by simpa using hrows)
          (by intro row hmem; exact hrow row (List.mem_reverse.mp hmem))
    · simp [Load, loadStep, hsupp] at hbuf

/-- C7 witness. An unsupported path is rejected by the single-file loader. -/
theorem load_spec_witness :
    Load demoDecode "doc.txt" false = none :=
  (load_spec demoDecode "doc.txt" false).1 (by decide)

/-- C8. On a directory none of whose entries is a supported-format file,
`LoadDIR` succeeds with the empty result, and the outcome does not depend
on the decoder at all, so no decode is attempted. -/
theorem loadDIR_no_supported (decode : String → Option Image)
    (listing : List String) (flip : Bool)
    (h : ∀ f ∈ listing, ImageFormatSupported f = false) :
    LoadDIR decode listing flip = some [] ∧
      ∀ d : String → Option Image,
        LoadDIR d listing flip = LoadDIR decode listing flip := by
  have hfilter : listing.filter ImageFormatSupported = [] := by
    rw [List.filter_eq_nil_iff]
    intro f hf
    simp [h f hf]
  refine ⟨?_, ?_⟩
  · simp [LoadDIR, hfilter, LoadList, loadAll]
  · intro d
    simp [LoadDIR, hfilter, LoadList, loadAll]

/-- C8 witness. A directory whose only entry is `doc.txt` yields the empty
result. -/
theorem loadDIR_no_supported_witness :
    LoadDIR demoDecode ["doc.txt"] false = some [] :=
  (loadDIR_no_supported demoDecode ["doc.txt"] false (by decide)).1

end LoadImage

end Mlpack
